import Mathlib

/-
Verification development for the Adaptive-PSO-FL repository.

The repository implements a particle-swarm optimization (PSO) engine:
four variant runners (CPSO, SPSO, HCLPSO, EPSO) built on a shared
`compute_global_best` step in `algorithms.py`, and an entropy-adaptive
global-best optimizer `GlobalBestPSO_entropy` in
`pyswarms_gbest/Pyswarms_entropy_gbest.py`.

Numeric model: machine floats are embedded as `PFloat`, an extended
rational type with `nan`, `+inf`, `-inf` and finite rationals, with
IEEE-754 comparison and arithmetic semantics for the operations the
code performs.  Purely finite arithmetic (positions, velocities,
coefficients) is embedded over `ℚ`.  The one genuinely transcendental
operation, the base-2 Shannon entropy, is embedded over `ℝ` with
`Real.logb`.
-/

/-- Model of an IEEE-754 double as used by numpy/Python in this
repository: not-a-number, positive infinity, negative infinity, or a
finite value (embedded as a rational). -/
inductive PFloat where
  | nan : PFloat
  | inf : PFloat
  | ninf : PFloat
  | fin (q : ℚ) : PFloat
deriving DecidableEq

namespace PFloat

/-- IEEE strict less-than: any comparison involving `nan` is false. -/
def lt : PFloat → PFloat → Bool
  | nan, _ => false
  | _, nan => false
  | ninf, ninf => false
  | ninf, _ => true
  | _, ninf => false
  | inf, _ => false
  | fin _, inf => true
  | fin a, fin b => decide (a < b)

/-- IEEE less-or-equal: any comparison involving `nan` is false. -/
def le : PFloat → PFloat → Bool
  | nan, _ => false
  | _, nan => false
  | ninf, _ => true
  | _, ninf => false
  | inf, inf => true
  | inf, fin _ => false
  | fin _, inf => true
  | fin a, fin b => decide (a ≤ b)

/-- IEEE subtraction; `inf - inf` and anything with `nan` is `nan`. -/
def sub : PFloat → PFloat → PFloat
  | nan, _ => nan
  | _, nan => nan
  | inf, inf => nan
  | inf, _ => inf
  | ninf, ninf => nan
  | ninf, _ => ninf
  | fin _, inf => ninf
  | fin _, ninf => inf
  | fin a, fin b => fin (a - b)

/-- IEEE addition; `inf + (-inf)` and anything with `nan` is `nan`. -/
def add : PFloat → PFloat → PFloat
  | nan, _ => nan
  | _, nan => nan
  | inf, ninf => nan
  | inf, _ => inf
  | ninf, inf => nan
  | ninf, _ => ninf
  | fin _, inf => inf
  | fin _, ninf => ninf
  | fin a, fin b => fin (a + b)

/-- IEEE multiplication; `0 * inf` and anything with `nan` is `nan`. -/
def mul : PFloat → PFloat → PFloat
  | nan, _ => nan
  | _, nan => nan
  | inf, inf => inf
  | inf, ninf => ninf
  | ninf, inf => ninf
  | ninf, ninf => inf
  | inf, fin b => if 0 < b then inf else if b < 0 then ninf else nan
  | ninf, fin b => if 0 < b then ninf else if b < 0 then inf else nan
  | fin a, inf => if 0 < a then inf else if a < 0 then ninf else nan
  | fin a, ninf => if 0 < a then ninf else if a < 0 then inf else nan
  | fin a, fin b => fin (a * b)

/-- IEEE absolute value. -/
def absv : PFloat → PFloat
  | nan => nan
  | inf => inf
  | ninf => inf
  | fin a => fin |a|

/-- Test for `nan`. -/
def isNan : PFloat → Bool
  | nan => true
  | _ => false

/-- Test for a finite value. -/
def isFin : PFloat → Bool
  | fin _ => true
  | _ => false

/-- Pairwise minimum as numpy's `min` reduction computes it: `nan`
propagates; otherwise keep the smaller, ties keeping the left value. -/
def pmin (a b : PFloat) : PFloat :=
  if a.isNan || b.isNan then nan else if lt b a then b else a

/-- Model of `np.min` over a nonempty vector of floats: a fold of the
nan-propagating pairwise minimum.  (numpy raises on an empty array; the
empty case here returns `inf` and is never reached by the code paths we
embed.) -/
def npMin : List PFloat → PFloat
  | [] => inf
  | a :: t => t.foldl pmin a

theorem lt_imp_le {a b : PFloat} (h : lt a b = true) : le a b = true := by
  cases a <;> cases b <;> simp_all [lt, le]
  exact le_of_lt h

theorem lt_nan_left {b : PFloat} : lt nan b = false := by cases b <;> rfl

theorem lt_imp_not_nan_left {a b : PFloat} (h : lt a b = true) :
    a.isNan = false := by
  cases a <;> cases b <;> simp_all [lt, isNan]

theorem le_refl_of_not_nan {a : PFloat} (h : a.isNan = false) :
    le a a = true := by
  cases a <;> simp_all [le, isNan]

end PFloat

/-
Embedding of `entropy` (Pyswarms_entropy_gbest.py, lines 316-325):

    value_counts = Counter(lst)
    total_size = len(lst)
    probabilities = [count / total_size for count in value_counts.values()]
    entropy = sum([-p * math.log2(p) for p in probabilities])

`Counter` iterates its keys in first-insertion order.
-/

/-- Distinct values of a list in first-seen order, as the keys of a
Python `Counter` built from the list. -/
def counterKeys (l : List ℕ) : List ℕ :=
  l.foldl (fun acc a => if a ∈ acc then acc else acc ++ [a]) []

/-- Occurrence counts of the distinct values, in the same order as
`counterKeys`: the values of a Python `Counter`. -/
def counterValues (l : List ℕ) : List ℕ :=
  (counterKeys l).map (fun k => l.count k)

/-- Shannon entropy (base 2) of the label distribution of a list, as
computed by `entropy` in Pyswarms_entropy_gbest.py. -/
noncomputable def entropy (l : List ℕ) : ℝ :=
  ((counterValues l).map (fun c =>
    -((c : ℝ) / (l.length : ℝ)) * Real.logb 2 ((c : ℝ) / (l.length : ℝ)))).sum

theorem counterValues_replicate_succ (m : ℕ) :
    counterValues (List.replicate (m + 1) 0) = [m + 1] := by
  have hkeys : counterKeys (List.replicate (m + 1) 0) = [0] := by
    have haux : ∀ (k : ℕ) (acc : List ℕ), 0 ∈ acc →
        (List.replicate k 0).foldl
          (fun acc a => if a ∈ acc then acc else acc ++ [a]) acc = acc := by
      intro k
      induction k with
      | zero => intro acc _; rfl
      | succ k ih =>
        intro acc hacc
        simp only [List.replicate_succ, List.foldl_cons, if_pos hacc]
        exact ih acc hacc
    simp only [counterKeys, List.replicate_succ, List.foldl_cons]
    simpa using haux m [0] (by simp)
  simp [counterValues, hkeys, List.count_replicate]

theorem entropy_replicate_zero (n : ℕ) :
    entropy (List.replicate n 0) = 0 := by
  cases n with
  | zero => simp [entropy, counterValues, counterKeys]
  | succ m =>
    have hlen : (List.replicate (m + 1) 0).length = m + 1 := by simp
    have hne : ((m : ℝ) + 1) ≠ 0 := by positivity
    simp [entropy, counterValues_replicate_succ, hlen, div_self, hne,
      Real.logb_one]

/-- C9: the entropy function returns exactly 1 on `[0,0,0,1,1,1]` (two
equally likely labels) and exactly 0 on `[0,0,0,0]` (a single label). -/
theorem entropy_two_even_labels_and_single_label :
    entropy [0, 0, 0, 1, 1, 1] = 1 ∧ entropy [0, 0, 0, 0] = 0 := by
  constructor
  · have hlog : Real.logb 2 ((1 : ℝ) / 2) = -1 := by
      rw [show ((1 : ℝ) / 2) = (2 : ℝ)⁻¹ by norm_num, Real.logb_inv,
        Real.logb_self_eq_one (by norm_num)]
    have hv : counterValues [0, 0, 0, 1, 1, 1] = [3, 3] := by rfl
    unfold entropy
    rw [hv]
    norm_num [hlog]
  · have hv : counterValues [0, 0, 0, 0] = [4] := by rfl
    unfold entropy
    rw [hv]
    norm_num [Real.logb_one]

/-- Integer value Python uses when comparing an `int` to a `bool`
(`bool` is a subclass of `int` with `False == 0` and `True == 1`). -/
def pyBoolToNat (b : Bool) : ℕ := if b then 1 else 0

/-- Guard of the recalibration block, Pyswarms_entropy_gbest.py line 264:
`if i%100 == False:`.  Python evaluates this as `(i % 100) == 0`. -/
def entropyTrigger (i : ℕ) : Bool := i % 100 == pyBoolToNat false

/-- Embedding of the coefficient recalibration, Pyswarms_entropy_gbest.py
lines 265-283: given the entropy `R` of the accumulated label list,
adjust `c1`/`c2` by the threshold rules, flooring each at `0.1`, and
reset the label list (only) in the lowest-entropy branch. -/
noncomputable def recalStep (R : ℝ) (c1 c2 : ℚ) (listR : List ℕ) :
    ℚ × ℚ × List ℕ :=
  if R > 4 / 5 then (max (1 / 10) (c1 + 1), max (1 / 10) (c2 - 1), listR)
  else if R > 3 / 5 then
    (max (1 / 10) (c1 + 1 / 5), max (1 / 10) (c2 - 1 / 5), listR)
  else if R > 3 / 10 then
    (max (1 / 10) (c1 + 1 / 5), max (1 / 10) (c2 + 1 / 5), listR)
  else (max (1 / 10) (c1 - 1), max (1 / 10) (c2 + 1), [])

/-- C1: the recalibration guard `i%100 == False` fires exactly at the
iterations whose index is divisible by 100 (including iteration 0), and
at no other iteration, because Python's `False` compares equal to the
integer 0. -/
theorem entropyTrigger_iff_div_100 (i : ℕ) :
    entropyTrigger i = true ↔ i % 100 = 0 := by
  simp [entropyTrigger, pyBoolToNat]

/-- C8: every branch of the recalibration floors both coefficients at
0.1, so after any recalibration adjustment `c1 >= 0.1` and `c2 >= 0.1`
regardless of the entropy value and the incoming coefficients. -/
theorem recalStep_coeff_floor (R : ℝ) (c1 c2 : ℚ) (l : List ℕ) :
    1 / 10 ≤ (recalStep R c1 c2 l).1 ∧ 1 / 10 ≤ (recalStep R c1 c2 l).2.1 := by
  unfold recalStep
  split_ifs <;> exact ⟨le_max_left _ _, le_max_left _ _⟩

/-- Scan underlying `np.argmin`: walk the vector keeping the index of
the best value seen; a value displaces the incumbent when it is
strictly smaller, or when it is `nan` and the incumbent is not.  Hence
the first `nan` wins, and ties keep the earlier index. -/
def argminNpAux : ℕ → ℕ → PFloat → List PFloat → ℕ
  | _, bi, _, [] => bi
  | k, bi, bv, v :: t =>
    if PFloat.lt v bv || (v.isNan && !bv.isNan) then argminNpAux (k + 1) k v t
    else argminNpAux (k + 1) bi bv t

/-- Model of `np.argmin` over a float vector, as used at algorithms.py
line 13 (`np.argmin([func_bench(p) for p in personal_best])`) to select
the global-best particle.  (numpy raises on an empty array; the empty
case returns 0 and is never reached.) -/
def argminNp : List PFloat → ℕ
  | [] => 0
  | a :: t => argminNpAux 1 0 a t

/-- C3 (code evaluation): with personal-best costs `[1.0, NaN]`, the
global-best selection `np.argmin` picks index 1 — the particle whose
cost is NaN — even though particle 0 has a finite cost.  A NaN cost is
therefore not treated as worse than every finite cost. -/
theorem argminNp_selects_nan_over_finite :
    argminNp [PFloat.fin 1, PFloat.nan] = 1 ∧
      (PFloat.fin 1).isFin = true ∧ PFloat.nan.isFin = false := by
  decide

/-- Number of particles of the swarm built by
`GlobalBestPSO_entropy.__init__` (Pyswarms_entropy_gbest.py lines
135-145): the constructor forwards `n_particles=50` to the base class
literally, ignoring its own `n_particles` argument. -/
def entropyInitSwarmParticles (_n_particles : ℕ) : ℕ := 50

/-- C4 (code evaluation): the instance constructed with
`n_particles = 150` (gbest.py line 18) operates on a swarm of 50
particles, not 150. -/
theorem entropyInit_ignores_requested_particles :
    entropyInitSwarmParticles 150 = 50 ∧ entropyInitSwarmParticles 150 ≠ 150 := by
  decide

/-
Embedding of algorithms.py.  The module holds three shared arrays
(`particles_position`, `particles_velocity`, `personal_best`, lines
8-10) over `params.num_particles` particles and
`params.num_dimensions` dimensions; `compute_global_best` (lines
12-28) mutates them in a sequential per-particle loop.  The
configuration module `params` is not part of the sources, so particle
count, dimension count, the coefficients `c1`, `c2`, `w` and the
iteration count are parameters here; the `np.random` draws are passed
in as explicit streams.  Particle count is `n + 1` so that the
`np.argmin` selection is total, as in any actual run.
-/

/-- Shared mutable swarm arrays of algorithms.py (module level, lines
8-10): positions, velocities and personal bests. -/
@[ext]
structure SwarmArrays (n d : ℕ) where
  pos : Fin (n + 1) → Fin d → ℚ
  vel : Fin (n + 1) → Fin d → ℚ
  pbest : Fin (n + 1) → Fin d → ℚ

/-- First index minimizing `f`, as `np.argmin` computes it on a finite
cost vector (ties keep the earlier index). -/
def argminFin {n : ℕ} (f : Fin (n + 1) → ℚ) : Fin (n + 1) :=
  (List.finRange (n + 1)).foldl (fun b j => if f j < f b then j else b) 0

/-- Body of the per-particle loop of `compute_global_best`
(algorithms.py lines 15-27) for particle `i`: with the draws `r1 i`,
`r2 i`, update the particle's velocity and position, then
conditionally update its personal best and the running global best. -/
def particleStep {n d : ℕ} (c1 c2 w : ℚ) (fac : Fin d → ℚ)
    (funcBench : (Fin d → ℚ) → ℚ) (r1 r2 : Fin (n + 1) → Fin d → ℚ)
    (acc : SwarmArrays n d × (Fin d → ℚ)) (i : Fin (n + 1)) :
    SwarmArrays n d × (Fin d → ℚ) :=
  let s := acc.1
  let gb := acc.2
  let vNew : Fin d → ℚ := fun k =>
    w * s.vel i k + c1 * r1 i k * (s.pbest i k - s.pos i k) * fac k
      + c2 * r2 i k * (gb k - s.pos i k + 0) * fac k
  let pNew : Fin d → ℚ := fun k => s.pos i k + vNew k
  let s1 : SwarmArrays n d :=
    { pos := Function.update s.pos i pNew
      vel := Function.update s.vel i vNew
      pbest := s.pbest }
  if funcBench pNew < funcBench (s.pbest i) then
    let s2 : SwarmArrays n d := { s1 with pbest := Function.update s1.pbest i pNew }
    if funcBench pNew < funcBench gb then (s2, pNew) else (s2, gb)
  else (s1, gb)

/-- Embedding of `compute_global_best` (algorithms.py lines 12-28):
select the global best from the personal bests via `np.argmin`, then
run the sequential per-particle update loop.  Returns the updated
arrays and the (possibly improved) global best position. -/
def computeGlobalBest {n d : ℕ} (c1 c2 w : ℚ) (fac : Fin d → ℚ)
    (funcBench : (Fin d → ℚ) → ℚ) (r1 r2 : Fin (n + 1) → Fin d → ℚ)
    (s : SwarmArrays n d) : SwarmArrays n d × (Fin d → ℚ) :=
  (List.finRange (n + 1)).foldl (particleStep c1 c2 w fac funcBench r1 r2)
    (s, s.pbest (argminFin fun j => funcBench (s.pbest j)))

/-- State of the per-particle loop of `compute_global_best` just before
particle `m` is processed: the fold over the first `m` particles. -/
def loopBefore {n d : ℕ} (c1 c2 w : ℚ) (fac : Fin d → ℚ)
    (funcBench : (Fin d → ℚ) → ℚ) (r1 r2 : Fin (n + 1) → Fin d → ℚ)
    (s : SwarmArrays n d) (m : ℕ) : SwarmArrays n d × (Fin d → ℚ) :=
  ((List.finRange (n + 1)).take m).foldl (particleStep c1 c2 w fac funcBench r1 r2)
    (s, s.pbest (argminFin fun j => funcBench (s.pbest j)))

/-- Shared iteration structure of the four variant runners
(algorithms.py lines 31-71): each iteration calls
`compute_global_best` with the variant's factor and fresh draws, then
records `func_bench(global_best)`; the arrays persist across
iterations.  `k` is the index of the current iteration. -/
def variantRunAux {n d : ℕ} (c1 c2 w : ℚ) (fac : Fin d → ℚ)
    (funcBench : (Fin d → ℚ) → ℚ)
    (r1s r2s : ℕ → Fin (n + 1) → Fin d → ℚ) :
    ℕ → ℕ → SwarmArrays n d → SwarmArrays n d × List ℚ
  | _, 0, s => (s, [])
  | k, it + 1, s =>
    let c := computeGlobalBest c1 c2 w fac funcBench (r1s k) (r2s k) s
    let rest := variantRunAux c1 c2 w fac funcBench r1s r2s (k + 1) it c.1
    (rest.1, funcBench c.2 :: rest.2)

/-- Run of a variant for `iters` iterations from the arrays `s`,
recording the best fitness of every iteration (the column written into
the evolution matrix by each runner). -/
def variantRun {n d : ℕ} (c1 c2 w : ℚ) (fac : Fin d → ℚ)
    (funcBench : (Fin d → ℚ) → ℚ)
    (r1s r2s : ℕ → Fin (n + 1) → Fin d → ℚ)
    (iters : ℕ) (s : SwarmArrays n d) : SwarmArrays n d × List ℚ :=
  variantRunAux c1 c2 w fac funcBench r1s r2s 0 iters s

/-- CPSO runner (algorithms.py lines 31-35): factor 1. -/
def cpsoAlgorithm {n d : ℕ} (c1 c2 w : ℚ) (funcBench : (Fin d → ℚ) → ℚ)
    (r1s r2s : ℕ → Fin (n + 1) → Fin d → ℚ) (iters : ℕ)
    (s : SwarmArrays n d) : SwarmArrays n d × List ℚ :=
  variantRun c1 c2 w (fun _ => 1) funcBench r1s r2s iters s

/-- SPSO runner (algorithms.py lines 49-57): factor 1.  (The pre-loop
global-best computation at lines 50-51 is overwritten by the first loop
iteration and does not touch the arrays.) -/
def spsoAlgorithm {n d : ℕ} (c1 c2 w : ℚ) (funcBench : (Fin d → ℚ) → ℚ)
    (r1s r2s : ℕ → Fin (n + 1) → Fin d → ℚ) (iters : ℕ)
    (s : SwarmArrays n d) : SwarmArrays n d × List ℚ :=
  variantRun c1 c2 w (fun _ => 1) funcBench r1s r2s iters s

/-- HCLPSO runner (algorithms.py lines 38-46): the factor is the
per-dimension heterogeneity vector `hf`, drawn once per run from
`Uniform(1 - alpha, 1 + alpha)` and passed in here. -/
def hclpsoAlgorithm {n d : ℕ} (c1 c2 w : ℚ) (hf : Fin d → ℚ)
    (funcBench : (Fin d → ℚ) → ℚ)
    (r1s r2s : ℕ → Fin (n + 1) → Fin d → ℚ) (iters : ℕ)
    (s : SwarmArrays n d) : SwarmArrays n d × List ℚ :=
  variantRun c1 c2 w hf funcBench r1s r2s iters s

/-- EPSO runner (algorithms.py lines 60-71): the factor is the inertia
weight `w` itself. -/
def epsoAlgorithm {n d : ℕ} (c1 c2 w : ℚ) (funcBench : (Fin d → ℚ) → ℚ)
    (r1s r2s : ℕ → Fin (n + 1) → Fin d → ℚ) (iters : ℕ)
    (s : SwarmArrays n d) : SwarmArrays n d × List ℚ :=
  variantRun c1 c2 w (fun _ => w) funcBench r1s r2s iters s

/-- One `run` iteration of `plot` (plotting.py lines 15-19): CPSO,
SPSO, HCLPSO and EPSO execute in this order on the shared module-level
arrays of algorithms.py, each starting from the arrays exactly as the
previous runner left them.  Returns the arrays after each of the four
runs. -/
def plotOneRun {n d : ℕ} (c1 c2 w : ℚ) (hf : Fin d → ℚ)
    (funcBench : (Fin d → ℚ) → ℚ)
    (rc1 rc2 rs1 rs2 rh1 rh2 re1 re2 : ℕ → Fin (n + 1) → Fin d → ℚ)
    (iters : ℕ) (s0 : SwarmArrays n d) :
    SwarmArrays n d × SwarmArrays n d × SwarmArrays n d × SwarmArrays n d :=
  let s1 := (cpsoAlgorithm c1 c2 w funcBench rc1 rc2 iters s0).1
  let s2 := (spsoAlgorithm c1 c2 w funcBench rs1 rs2 iters s1).1
  let s3 := (hclpsoAlgorithm c1 c2 w hf funcBench rh1 rh2 iters s2).1
  let s4 := (epsoAlgorithm c1 c2 w funcBench re1 re2 iters s3).1
  (s1, s2, s3, s4)

theorem argminFin_le {n : ℕ} (f : Fin (n + 1) → ℚ) (j : Fin (n + 1)) :
    f (argminFin f) ≤ f j := by
  have key : ∀ (l : List (Fin (n + 1))) (b : Fin (n + 1)),
      f (l.foldl (fun b j => if f j < f b then j else b) b) ≤ f b ∧
        ∀ x ∈ l, f (l.foldl (fun b j => if f j < f b then j else b) b) ≤ f x := by
    intro l
    induction l with
    | nil => exact fun b => ⟨le_refl _, by simp⟩
    | cons a t ih =>
      intro b
      simp only [List.foldl_cons]
      have hstep : f (if f a < f b then a else b) ≤ f b := by
        split_ifs with h
        · exact le_of_lt h
        · exact le_refl _
      have hstepa : f (if f a < f b then a else b) ≤ f a := by
        split_ifs with h
        · exact le_refl _
        · exact le_of_not_lt h
      refine ⟨le_trans (ih _).1 hstep, ?_⟩
      intro x hx
      rcases List.mem_cons.1 hx with rfl | hx
      · exact le_trans (ih _).1 hstepa
      · exact (ih _).2 x hx
  exact (key (List.finRange (n + 1)) 0).2 j (List.mem_finRange j)

section AlgorithmsFacts

variable {n d : ℕ} (c1 c2 w : ℚ) (fac : Fin d → ℚ)
variable (funcBench : (Fin d → ℚ) → ℚ)
variable (r1 r2 : Fin (n + 1) → Fin d → ℚ)

theorem particleStep_gb_le (acc : SwarmArrays n d × (Fin d → ℚ)) (i : Fin (n + 1)) :
    funcBench (particleStep c1 c2 w fac funcBench r1 r2 acc i).2 ≤
      funcBench acc.2 := by
  dsimp only [particleStep]
  split_ifs with h1 h2
  · exact le_of_lt h2
  · exact le_refl _
  · exact le_refl _

theorem particleStep_inv (acc : SwarmArrays n d × (Fin d → ℚ)) (i : Fin (n + 1))
    (h : ∃ j, funcBench (acc.1.pbest j) ≤ funcBench acc.2) :
    ∃ j, funcBench ((particleStep c1 c2 w fac funcBench r1 r2 acc i).1.pbest j) ≤
      funcBench (particleStep c1 c2 w fac funcBench r1 r2 acc i).2 := by
  obtain ⟨j, hj⟩ := h
  dsimp only [particleStep]
  split_ifs with h1 h2
  · refine ⟨i, ?_⟩
    dsimp only
    rw [Function.update_same]
  · by_cases hij : j = i
    · refine ⟨j, ?_⟩
      subst hij
      dsimp only
      rw [Function.update_same]
      exact le_trans (le_of_lt h1) hj
    · refine ⟨j, ?_⟩
      dsimp only
      rw [Function.update_noteq hij]
      exact hj
  · exact ⟨j, hj⟩

theorem foldl_particleStep_gb_le (l : List (Fin (n + 1)))
    (acc : SwarmArrays n d × (Fin d → ℚ)) :
    funcBench (l.foldl (particleStep c1 c2 w fac funcBench r1 r2) acc).2 ≤
      funcBench acc.2 := by
  induction l generalizing acc with
  | nil => exact le_refl _
  | cons a t ih =>
    exact le_trans (ih _) (particleStep_gb_le c1 c2 w fac funcBench r1 r2 acc a)

theorem foldl_particleStep_inv (l : List (Fin (n + 1)))
    (acc : SwarmArrays n d × (Fin d → ℚ))
    (h : ∃ j, funcBench (acc.1.pbest j) ≤ funcBench acc.2) :
    ∃ j, funcBench
        ((l.foldl (particleStep c1 c2 w fac funcBench r1 r2) acc).1.pbest j) ≤
      funcBench (l.foldl (particleStep c1 c2 w fac funcBench r1 r2) acc).2 := by
  induction l generalizing acc with
  | nil => exact h
  | cons a t ih =>
    exact ih _ (particleStep_inv c1 c2 w fac funcBench r1 r2 acc a h)

theorem computeGlobalBest_inv (s : SwarmArrays n d) :
    ∃ j, funcBench
        ((computeGlobalBest c1 c2 w fac funcBench r1 r2 s).1.pbest j) ≤
      funcBench (computeGlobalBest c1 c2 w fac funcBench r1 r2 s).2 := by
  exact foldl_particleStep_inv c1 c2 w fac funcBench r1 r2 _ _
    ⟨argminFin fun j => funcBench (s.pbest j), le_refl _⟩

theorem computeGlobalBest_le (s : SwarmArrays n d) (b : ℚ)
    (h : ∃ j, funcBench (s.pbest j) ≤ b) :
    funcBench (computeGlobalBest c1 c2 w fac funcBench r1 r2 s).2 ≤ b := by
  obtain ⟨j, hj⟩ := h
  calc funcBench (computeGlobalBest c1 c2 w fac funcBench r1 r2 s).2 ≤
      funcBench (s.pbest (argminFin fun j => funcBench (s.pbest j))) :=
        foldl_particleStep_gb_le c1 c2 w fac funcBench r1 r2 _ _
    _ ≤ funcBench (s.pbest j) := argminFin_le (fun j => funcBench (s.pbest j)) j
    _ ≤ b := hj

end AlgorithmsFacts

theorem variantRunAux_chain {n d : ℕ} (c1 c2 w : ℚ) (fac : Fin d → ℚ)
    (funcBench : (Fin d → ℚ) → ℚ)
    (r1s r2s : ℕ → Fin (n + 1) → Fin d → ℚ)
    (it k : ℕ) (s : SwarmArrays n d) (b : ℚ)
    (h : ∃ j, funcBench (s.pbest j) ≤ b) :
    List.Chain' (fun a c => c ≤ a)
        (variantRunAux c1 c2 w fac funcBench r1s r2s k it s).2 ∧
      ∀ x ∈ (variantRunAux c1 c2 w fac funcBench r1s r2s k it s).2.head?,
        x ≤ b := by
  induction it generalizing k s b with
  | zero => simp [variantRunAux]
  | succ it ih =>
    dsimp only [variantRunAux]
    have h1 : funcBench (computeGlobalBest c1 c2 w fac funcBench
        (r1s k) (r2s k) s).2 ≤ b :=
      computeGlobalBest_le c1 c2 w fac funcBench (r1s k) (r2s k) s b h
    obtain ⟨hch, hhd⟩ := ih (k + 1)
      (computeGlobalBest c1 c2 w fac funcBench (r1s k) (r2s k) s).1
      (funcBench (computeGlobalBest c1 c2 w fac funcBench (r1s k) (r2s k) s).2)
      (computeGlobalBest_inv c1 c2 w fac funcBench (r1s k) (r2s k) s)
    constructor
    · rw [List.chain'_cons']
      exact ⟨fun y hy => hhd y hy, hch⟩
    · intro x hx
      simp only [List.head?_cons, Option.mem_def, Option.some.injEq] at hx
      exact hx ▸ h1

/-
Embedding of `GlobalBestPSO_entropy.optimize`
(Pyswarms_entropy_gbest.py, lines 160-314).  The objective values of
each iteration are abstracted as a cost stream: `costs i j` is the
value `compute_objective_function` returns for particle `j` at
iteration `i`.  Positions and velocities evolve through the pyswarms
backend (`compute_velocity` / `compute_position`, not part of this
repository's sources) and influence the loop only through this
stream.  The pyswarms backend helpers the loop calls are likewise not
under src/ and are modelled from the spec below.
-/

/-- Configuration of an entropy-optimizer run: the `c1`/`c2` options
and the convergence parameters `ftol`, `ftol_iter`. -/
structure EConfig where
  c1 : ℚ
  c2 : ℚ
  ftol : PFloat
  ftolIter : ℕ

/-- Loop state of `optimize`: personal-best costs, the global-best
cost, the previous-iteration costs (`previous_pbest_cost`), the
accumulated labels (`list_R`), the current options, the ftol window
(`ftol_history`), the recorded `cost_history`, and the iteration index
at which the loop broke early, if it did. -/
structure EState (n : ℕ) where
  pbestCost : Fin n → PFloat
  bestCost : PFloat
  prevCost : Fin n → PFloat
  listR : List ℕ
  c1 : ℚ
  c2 : ℚ
  ftolHist : List Bool
  costHist : List PFloat
  brokeAt : Option ℕ

/-- Modelled from the spec: `compute_pbest` (pyswarms backend, not
under src/) — spec section 4.1: after evaluation, a particle's
personal-best cost is replaced exactly when the new cost is a strict
improvement; ties do not replace. -/
def computePbestCost {n : ℕ} (current pbest : Fin n → PFloat) : Fin n → PFloat :=
  fun j => if PFloat.lt (current j) (pbest j) then current j else pbest j

/-- Modelled from the spec: `Star.compute_gbest` (pyswarms backend,
not under src/) — spec sections 4.2 and 8: scan all personal-best
costs, pick the minimum, and keep the previous global best unless the
minimum strictly improves on it, so an improvement is never
discarded. -/
def computeGbestCost {n : ℕ} (pbest : Fin n → PFloat) (best : PFloat) : PFloat :=
  if PFloat.lt (PFloat.npMin ((List.finRange n).map pbest)) best then
    PFloat.npMin ((List.finRange n).map pbest)
  else best

/-- Classification of one particle's cost delta (lines 256-262): a
delta above 0.2 appends label 2 (worsened), otherwise a delta above
-0.2 appends label 1 (neutral), otherwise label 0 (improved). -/
def classifyDelta (diff : PFloat) : ℕ :=
  if PFloat.lt (PFloat.fin (1 / 5)) diff then 2
  else if PFloat.lt (PFloat.fin (-(1 / 5))) diff then 1
  else 0

/-- Improvement labels of one iteration in particle order, as the loop
at lines 255-262 appends them to `list_R`. -/
def iterationLabels {n : ℕ} (current prev : Fin n → PFloat) : List ℕ :=
  (List.finRange n).map fun j => classifyDelta (PFloat.sub (current j) (prev j))

/-- Push onto the ftol sliding window (`deque(maxlen=ftol_iter)`, line
213): append on the right, dropping from the left beyond the window
size. -/
def pushWindow (maxlen : ℕ) (l : List Bool) (b : Bool) : List Bool :=
  let l2 := l ++ [b]
  if maxlen < l2.length then l2.drop (l2.length - maxlen) else l2

/-- One iteration `i` of the optimize loop (lines 214-298): evaluate
costs, update personal bests and the global best, record the best
cost, evaluate the ftol window (appending always, but breaking only
once `i` has reached `ftol_iter`), and — when not breaking — append
the improvement labels and recalibrate the options when the iteration
index is a multiple of 100.  Returns the new state and whether the
break fired. -/
noncomputable def entropyIterStep {n : ℕ} (cfg : EConfig)
    (costs : ℕ → Fin n → PFloat) (i : ℕ) (s : EState n) : EState n × Bool :=
  let current := costs i
  let pbest2 := computePbestCost current s.pbestCost
  let bestYet := s.bestCost
  let best2 := computeGbestCost pbest2 bestYet
  let costHist2 := s.costHist ++ [best2]
  let relMeasure := PFloat.mul cfg.ftol (PFloat.add (PFloat.fin 1) (PFloat.absv bestYet))
  let delta := PFloat.lt (PFloat.absv (PFloat.sub best2 bestYet)) relMeasure
  let window := pushWindow cfg.ftolIter s.ftolHist delta
  if cfg.ftolIter ≤ i ∧ window.all id then
    ({ s with
        pbestCost := pbest2
        bestCost := best2
        ftolHist := window
        costHist := costHist2
        brokeAt := some i }, true)
  else
    let listR2 := s.listR ++ iterationLabels current s.prevCost
    if entropyTrigger i then
      let r := recalStep (entropy listR2) s.c1 s.c2 listR2
      ({ pbestCost := pbest2
         bestCost := best2
         prevCost := current
         listR := r.2.2
         c1 := r.1
         c2 := r.2.1
         ftolHist := window
         costHist := costHist2
         brokeAt := s.brokeAt }, false)
    else
      ({ pbestCost := pbest2
         bestCost := best2
         prevCost := current
         listR := listR2
         c1 := s.c1
         c2 := s.c2
         ftolHist := window
         costHist := costHist2
         brokeAt := s.brokeAt }, false)

/-- Iterate the loop from iteration `i` with `fuel` iterations left,
stopping when the ftol break fires. -/
noncomputable def entropyRunAux {n : ℕ} (cfg : EConfig)
    (costs : ℕ → Fin n → PFloat) : ℕ → ℕ → EState n → EState n
  | _, 0, s => s
  | i, fuel + 1, s =>
    let r := entropyIterStep cfg costs i s
    if r.2 then r.1 else entropyRunAux cfg costs (i + 1) fuel r.1

/-- Initial loop state: `pbest_cost` is set to `+inf` at line 212 and
`previous_pbest_cost` to `+inf` at line 207; the accumulators start
empty.  Modelled from the spec: the initial global-best cost before
any evaluation comes from the base-class `reset` (pyswarms, not under
src/), taken as `+inf` — per the spec's state machine no best exists
before the first evaluation. -/
def entropyInitState (cfg : EConfig) (n : ℕ) : EState n :=
  { pbestCost := fun _ => PFloat.inf, bestCost := PFloat.inf,
    prevCost := fun _ => PFloat.inf, listR := [], c1 := cfg.c1,
    c2 := cfg.c2, ftolHist := [], costHist := [], brokeAt := none }

/-- Full `optimize` run over a swarm of `n` particles for at most
`iters` iterations. -/
noncomputable def entropyOptimize (cfg : EConfig) {n : ℕ}
    (costs : ℕ → Fin n → PFloat) (iters : ℕ) : EState n :=
  entropyRunAux cfg costs 0 iters (entropyInitState cfg n)

theorem computeGbestCost_le {n : ℕ} (p : Fin n → PFloat) {b : PFloat}
    (hb : b.isNan = false) : PFloat.le (computeGbestCost p b) b = true := by
  unfold computeGbestCost
  split_ifs with h
  · exact PFloat.lt_imp_le h
  · exact PFloat.le_refl_of_not_nan hb

theorem computeGbestCost_not_nan {n : ℕ} (p : Fin n → PFloat) {b : PFloat}
    (hb : b.isNan = false) : (computeGbestCost p b).isNan = false := by
  unfold computeGbestCost
  split_ifs with h
  · exact PFloat.lt_imp_not_nan_left h
  · exact hb

/-- Run invariant for the monotone-history proof: the global-best cost
is never `nan`, the recorded history (prefixed with the initial `+inf`
best) is non-increasing, and its last entry is the current best. -/
def EMono {n : ℕ} (s : EState n) : Prop :=
  s.bestCost.isNan = false ∧
    List.Chain' (fun a b => PFloat.le b a = true) (PFloat.inf :: s.costHist) ∧
    (PFloat.inf :: s.costHist).getLast? = some s.bestCost

theorem entropyIterStep_mono {n : ℕ} (cfg : EConfig)
    (costs : ℕ → Fin n → PFloat) (i : ℕ) (s : EState n) (h : EMono s) :
    EMono (entropyIterStep cfg costs i s).1 := by
  obtain ⟨hnan, hch, hlast⟩ := h
  have hb2nan : (computeGbestCost (computePbestCost (costs i) s.pbestCost)
      s.bestCost).isNan = false := computeGbestCost_not_nan _ hnan
  have hb2le : PFloat.le (computeGbestCost (computePbestCost (costs i)
      s.pbestCost) s.bestCost) s.bestCost = true := computeGbestCost_le _ hnan
  have hch2 : List.Chain' (fun a b => PFloat.le b a = true)
      (PFloat.inf :: (s.costHist ++
        [computeGbestCost (computePbestCost (costs i) s.pbestCost) s.bestCost])) := by
    rw [← List.cons_append, List.chain'_append]
    refine ⟨hch, List.chain'_singleton _, ?_⟩
    intro x hx y hy
    rw [hlast] at hx
    simp only [List.head?_cons, Option.mem_def, Option.some.injEq] at hx hy
    subst hx
    subst hy
    exact hb2le
  have hlast2 : (PFloat.inf :: (s.costHist ++
      [computeGbestCost (computePbestCost (costs i) s.pbestCost) s.bestCost])).getLast?
      = some (computeGbestCost (computePbestCost (costs i) s.pbestCost) s.bestCost) := by
    rw [← List.cons_append]
    exact List.getLast?_concat _
  have hfields : (entropyIterStep cfg costs i s).1.bestCost =
      computeGbestCost (computePbestCost (costs i) s.pbestCost) s.bestCost ∧
      (entropyIterStep cfg costs i s).1.costHist = s.costHist ++
        [computeGbestCost (computePbestCost (costs i) s.pbestCost) s.bestCost] := by
    unfold entropyIterStep
    dsimp only
    split_ifs <;> exact ⟨rfl, rfl⟩
  unfold EMono
  rw [hfields.1, hfields.2]
  exact ⟨hb2nan, hch2, hlast2⟩

theorem entropyRunAux_mono {n : ℕ} (cfg : EConfig)
    (costs : ℕ → Fin n → PFloat) (fuel : ℕ) :
    ∀ (i : ℕ) (s : EState n), EMono s →
      EMono (entropyRunAux cfg costs i fuel s) := by
  induction fuel with
  | zero => intro i s h; simpa [entropyRunAux] using h
  | succ fuel ih =>
    intro i s h
    rw [entropyRunAux]
    by_cases hb : (entropyIterStep cfg costs i s).2
    · simpa [hb] using entropyIterStep_mono cfg costs i s h
    · simpa [hb] using ih (i + 1) _ (entropyIterStep_mono cfg costs i s h)

theorem entropyInitState_mono (cfg : EConfig) (n : ℕ) :
    EMono (entropyInitState cfg n) :=
  ⟨rfl, List.chain'_singleton _, rfl⟩

/-- C2: across every iteration of every run, the recorded global-best
cost never increases.  First conjunct: for the variant runners of
algorithms.py (CPSO, SPSO, HCLPSO and EPSO are `variantRun` with their
respective factors), the recorded best-fitness sequence is
non-increasing for every factor, objective, draw stream and starting
arrays.  Second conjunct: for the entropy-adaptive optimizer, the
recorded `cost_history`, prefixed with the initial `+inf` best, is
non-increasing for every configuration and cost stream. -/
theorem best_cost_history_monotone :
    (∀ (n d : ℕ) (c1 c2 w : ℚ) (fac : Fin d → ℚ)
        (funcBench : (Fin d → ℚ) → ℚ)
        (r1s r2s : ℕ → Fin (n + 1) → Fin d → ℚ) (iters : ℕ)
        (s0 : SwarmArrays n d),
        List.Chain' (fun a b => b ≤ a)
          (variantRun c1 c2 w fac funcBench r1s r2s iters s0).2) ∧
    (∀ (n : ℕ) (cfg : EConfig) (costs : ℕ → Fin n → PFloat) (iters : ℕ),
        List.Chain' (fun a b => PFloat.le b a = true)
          (PFloat.inf :: (entropyOptimize cfg costs iters).costHist)) := by
  constructor
  · intro n d c1 c2 w fac funcBench r1s r2s iters s0
    exact (variantRunAux_chain c1 c2 w fac funcBench r1s r2s iters 0 s0
      (funcBench (s0.pbest 0)) ⟨0, le_refl _⟩).1
  · intro n cfg costs iters
    exact (entropyRunAux_mono cfg costs iters 0 (entropyInitState cfg n)
      (entropyInitState_mono cfg n)).2.1

section VelocityFormula

variable {n d : ℕ} (c1 c2 w : ℚ) (fac : Fin d → ℚ)
variable (funcBench : (Fin d → ℚ) → ℚ)
variable (r1 r2 : Fin (n + 1) → Fin d → ℚ)

theorem particleStep_untouched (acc : SwarmArrays n d × (Fin d → ℚ))
    (j i : Fin (n + 1)) (hij : i ≠ j) :
    (particleStep c1 c2 w fac funcBench r1 r2 acc j).1.pos i = acc.1.pos i ∧
    (particleStep c1 c2 w fac funcBench r1 r2 acc j).1.vel i = acc.1.vel i ∧
    (particleStep c1 c2 w fac funcBench r1 r2 acc j).1.pbest i = acc.1.pbest i := by
  dsimp only [particleStep]
  split_ifs
  · exact ⟨Function.update_noteq hij _ _, Function.update_noteq hij _ _,
      Function.update_noteq hij _ _⟩
  · exact ⟨Function.update_noteq hij _ _, Function.update_noteq hij _ _,
      Function.update_noteq hij _ _⟩
  · exact ⟨Function.update_noteq hij _ _, Function.update_noteq hij _ _, rfl⟩

theorem foldl_particleStep_untouched (l : List (Fin (n + 1)))
    (i : Fin (n + 1)) (hl : ∀ j ∈ l, i ≠ j)
    (acc : SwarmArrays n d × (Fin d → ℚ)) :
    (l.foldl (particleStep c1 c2 w fac funcBench r1 r2) acc).1.pos i = acc.1.pos i ∧
    (l.foldl (particleStep c1 c2 w fac funcBench r1 r2) acc).1.vel i = acc.1.vel i ∧
    (l.foldl (particleStep c1 c2 w fac funcBench r1 r2) acc).1.pbest i = acc.1.pbest i := by
  induction l generalizing acc with
  | nil => exact ⟨rfl, rfl, rfl⟩
  | cons a t ih =>
    have h1 := particleStep_untouched c1 c2 w fac funcBench r1 r2 acc a i
      (hl a (List.mem_cons_self a t))
    have h2 := ih (fun j hj => hl j (List.mem_cons_of_mem a hj))
      (particleStep c1 c2 w fac funcBench r1 r2 acc a)
    exact ⟨h2.1.trans h1.1, h2.2.1.trans h1.2.1, h2.2.2.trans h1.2.2⟩

theorem particleStep_self (acc : SwarmArrays n d × (Fin d → ℚ)) (i : Fin (n + 1)) :
    (particleStep c1 c2 w fac funcBench r1 r2 acc i).1.vel i = (fun k =>
        w * acc.1.vel i k + c1 * r1 i k * (acc.1.pbest i k - acc.1.pos i k) * fac k
          + c2 * r2 i k * (acc.2 k - acc.1.pos i k + 0) * fac k) ∧
    (particleStep c1 c2 w fac funcBench r1 r2 acc i).1.pos i = (fun k =>
        acc.1.pos i k + (particleStep c1 c2 w fac funcBench r1 r2 acc i).1.vel i k) := by
  dsimp only [particleStep]
  split_ifs
  · exact ⟨Function.update_same _ _ _, by
      dsimp only
      rw [Function.update_same, Function.update_same]⟩
  · exact ⟨Function.update_same _ _ _, by
      dsimp only
      rw [Function.update_same, Function.update_same]⟩
  · exact ⟨Function.update_same _ _ _, by
      dsimp only
      rw [Function.update_same, Function.update_same]⟩

end VelocityFormula

theorem finRange_split {N : ℕ} (i : Fin N) :
    List.finRange N =
      (List.finRange N).take i.val ++ i :: (List.finRange N).drop (i.val + 1) := by
  have h : i.val < (List.finRange N).length := by
    simp
  conv_lhs => rw [← List.take_append_drop i.val (List.finRange N)]
  rw [List.drop_eq_getElem_cons h]
  congr 2
  simp

theorem mem_take_finRange_ne {N : ℕ} (i : Fin N) :
    ∀ j ∈ (List.finRange N).take i.val, i ≠ j := by
  intro j hj
  rw [List.mem_iff_getElem] at hj
  obtain ⟨k, hk, hkj⟩ := hj
  have hk2 : k < i.val := by
    rw [List.length_take, List.length_finRange] at hk
    exact lt_of_lt_of_le hk (min_le_left _ _)
  intro he
  rw [List.getElem_take, List.getElem_finRange] at hkj
  have : i.val = k := by rw [he, ← hkj]; rfl
  omega

theorem mem_drop_finRange_ne {N : ℕ} (i : Fin N) :
    ∀ j ∈ (List.finRange N).drop (i.val + 1), i ≠ j := by
  intro j hj
  rw [List.mem_iff_getElem] at hj
  obtain ⟨k, hk, hkj⟩ := hj
  rw [List.getElem_drop, List.getElem_finRange] at hkj
  intro he
  have hv : (j : ℕ) = i.val + 1 + k := by rw [← hkj]; simp
  rw [← he] at hv
  omega

/-- C7: for every particle `i`, one `compute_global_best` step sets
`velocity[i] = w*velocity[i] + c1*r1*(personal_best[i] - position[i])*fac
+ c2*r2*(global_best - position[i])*fac` — the factor multiplying only
the cognitive and social terms, with `r1 i`, `r2 i` the particle's own
per-dimension draws and `global_best` the running global best at the
moment particle `i` is processed — and then
`position[i] = position[i] + velocity[i]`.  Second conjunct: the
variant runners pass factor 1 (CPSO, SPSO), the heterogeneity vector
(HCLPSO), and the inertia weight `w` (EPSO) into this same update. -/
theorem velocity_position_update_formula :
    (∀ (n d : ℕ) (c1 c2 w : ℚ) (fac : Fin d → ℚ)
        (funcBench : (Fin d → ℚ) → ℚ) (r1 r2 : Fin (n + 1) → Fin d → ℚ)
        (s : SwarmArrays n d) (i : Fin (n + 1)),
      (computeGlobalBest c1 c2 w fac funcBench r1 r2 s).1.vel i = (fun k =>
        w * s.vel i k + c1 * r1 i k * (s.pbest i k - s.pos i k) * fac k
          + c2 * r2 i k *
              ((loopBefore c1 c2 w fac funcBench r1 r2 s i.val).2 k
                - s.pos i k + 0) * fac k) ∧
      (computeGlobalBest c1 c2 w fac funcBench r1 r2 s).1.pos i = (fun k =>
        s.pos i k + (computeGlobalBest c1 c2 w fac funcBench r1 r2 s).1.vel i k)) ∧
    (∀ (n d : ℕ) (c1 c2 w : ℚ) (hf : Fin d → ℚ)
        (funcBench : (Fin d → ℚ) → ℚ)
        (r1s r2s : ℕ → Fin (n + 1) → Fin d → ℚ)
        (iters : ℕ) (s : SwarmArrays n d),
      cpsoAlgorithm c1 c2 w funcBench r1s r2s iters s =
          variantRun c1 c2 w (fun _ => 1) funcBench r1s r2s iters s ∧
        spsoAlgorithm c1 c2 w funcBench r1s r2s iters s =
          variantRun c1 c2 w (fun _ => 1) funcBench r1s r2s iters s ∧
        hclpsoAlgorithm c1 c2 w hf funcBench r1s r2s iters s =
          variantRun c1 c2 w hf funcBench r1s r2s iters s ∧
        epsoAlgorithm c1 c2 w funcBench r1s r2s iters s =
          variantRun c1 c2 w (fun _ => w) funcBench r1s r2s iters s) := by
  constructor
  · intro n d c1 c2 w fac funcBench r1 r2 s i
    have hfold : computeGlobalBest c1 c2 w fac funcBench r1 r2 s =
        ((List.finRange (n + 1)).drop (i.val + 1)).foldl
          (particleStep c1 c2 w fac funcBench r1 r2)
          (particleStep c1 c2 w fac funcBench r1 r2
            (loopBefore c1 c2 w fac funcBench r1 r2 s i.val) i) := by
      unfold computeGlobalBest loopBefore
      conv_lhs => rw [finRange_split i]
      rw [List.foldl_append, List.foldl_cons]
    have hdrop := foldl_particleStep_untouched c1 c2 w fac funcBench r1 r2
      ((List.finRange (n + 1)).drop (i.val + 1)) i (mem_drop_finRange_ne i)
      (particleStep c1 c2 w fac funcBench r1 r2
        (loopBefore c1 c2 w fac funcBench r1 r2 s i.val) i)
    have htake := foldl_particleStep_untouched c1 c2 w fac funcBench r1 r2
      ((List.finRange (n + 1)).take i.val) i (mem_take_finRange_ne i)
      (s, s.pbest (argminFin fun j => funcBench (s.pbest j)))
    have hlb_pos : (loopBefore c1 c2 w fac funcBench r1 r2 s i.val).1.pos i =
        s.pos i := htake.1
    have hlb_vel : (loopBefore c1 c2 w fac funcBench r1 r2 s i.val).1.vel i =
        s.vel i := htake.2.1
    have hlb_pbest : (loopBefore c1 c2 w fac funcBench r1 r2 s i.val).1.pbest i =
        s.pbest i := htake.2.2
    have hself := particleStep_self c1 c2 w fac funcBench r1 r2
      (loopBefore c1 c2 w fac funcBench r1 r2 s i.val) i
    constructor
    · rw [hfold, hdrop.2.1, hself.1, hlb_pos, hlb_vel, hlb_pbest]
    · rw [hfold, hdrop.1, hdrop.2.1, hself.2, hlb_pos]
  · intro n d c1 c2 w hf funcBench r1s r2s iters s
    exact ⟨rfl, rfl, rfl, rfl⟩

/-- Objective `x^2` in one dimension, for a concrete two-particle
instance of the shared-arrays sequencing of plotting.py. -/
def c5Func : (Fin 1 → ℚ) → ℚ := fun v => v 0 * v 0

/-- Concrete import-time arrays for the instance: positions `0` and
`1`, zero velocities, personal bests equal to positions. -/
def c5State0 : SwarmArrays 1 1 :=
  { pos := fun i _ => (i.val : ℚ), vel := fun _ _ => 0,
    pbest := fun i _ => (i.val : ℚ) }

/-- Arrays at the start of the SPSO run inside one `plot` run
(`plotOneRun` with one iteration per variant, coefficients 1 and all
draws 1/2): exactly the arrays the CPSO run left behind. -/
def c5SpsoStart : SwarmArrays 1 1 :=
  (plotOneRun 1 1 1 (fun _ => 1) c5Func
    (fun _ _ _ => 1 / 2) (fun _ _ _ => 1 / 2) (fun _ _ _ => 1 / 2)
    (fun _ _ _ => 1 / 2) (fun _ _ _ => 1 / 2) (fun _ _ _ => 1 / 2)
    (fun _ _ _ => 1 / 2) (fun _ _ _ => 1 / 2) 1 c5State0).1

theorem c5SpsoStart_vel_eval : c5SpsoStart.vel 1 0 = -(1 / 2) := by
  have hfr : List.finRange 2 = [0, 1] := by decide
  norm_num [c5SpsoStart, plotOneRun, cpsoAlgorithm, variantRun, variantRunAux,
    computeGlobalBest, particleStep, argminFin, c5Func, c5State0, hfr,
    Function.update]

/-- C5 (counterexample): in the `plot` sequencing, the SPSO run does
not start from a freshly created swarm — at this concrete instance the
state it receives has a nonzero velocity (particle 1 carries velocity
-1/2 out of the CPSO run), whereas a fresh swarm has all velocities
zero. -/
theorem spso_start_state_not_fresh :
    ¬ ∀ (i : Fin 2) (k : Fin 1), c5SpsoStart.vel i k = 0 := by
  intro h
  have h1 := h 1 0
  rw [c5SpsoStart_vel_eval] at h1
  norm_num at h1

/-- C5 (amended): the variant runners share the module-level arrays of
algorithms.py: within one `plot` run each runner starts from the
arrays exactly as the previous runner left them (first conjunct, for
every configuration), and those arrays are in general not freshly
initialized — in the concrete instance the SPSO run starts with
velocity -1/2 on particle 1 (second conjunct). -/
theorem variant_runs_share_swarm_state :
    (∀ (n d : ℕ) (c1 c2 w : ℚ) (hf : Fin d → ℚ)
        (funcBench : (Fin d → ℚ) → ℚ)
        (rc1 rc2 rs1 rs2 rh1 rh2 re1 re2 : ℕ → Fin (n + 1) → Fin d → ℚ)
        (iters : ℕ) (s0 : SwarmArrays n d),
      (plotOneRun c1 c2 w hf funcBench rc1 rc2 rs1 rs2 rh1 rh2 re1 re2 iters s0).1 =
          (cpsoAlgorithm c1 c2 w funcBench rc1 rc2 iters s0).1 ∧
        (plotOneRun c1 c2 w hf funcBench rc1 rc2 rs1 rs2 rh1 rh2 re1 re2 iters s0).2.1 =
          (spsoAlgorithm c1 c2 w funcBench rs1 rs2 iters
            (cpsoAlgorithm c1 c2 w funcBench rc1 rc2 iters s0).1).1 ∧
        (plotOneRun c1 c2 w hf funcBench rc1 rc2 rs1 rs2 rh1 rh2 re1 re2 iters s0).2.2.1 =
          (hclpsoAlgorithm c1 c2 w hf funcBench rh1 rh2 iters
            (spsoAlgorithm c1 c2 w funcBench rs1 rs2 iters
              (cpsoAlgorithm c1 c2 w funcBench rc1 rc2 iters s0).1).1).1) ∧
    (c5SpsoStart.vel 1 0 = -(1 / 2) ∧ ¬ ((-(1 / 2) : ℚ) = 0)) := by
  refine ⟨?_, c5SpsoStart_vel_eval, by norm_num⟩
  intro n d c1 c2 w hf funcBench rc1 rc2 rs1 rs2 rh1 rh2 re1 re2 iters s0
  exact ⟨rfl, rfl, rfl⟩

theorem PFloat.sub_fin_inf {x : PFloat} (hx : x.isFin = true) :
    PFloat.sub x PFloat.inf = PFloat.ninf := by
  cases x <;> simp_all [PFloat.sub, PFloat.isFin]

theorem classifyDelta_ninf : classifyDelta PFloat.ninf = 0 := rfl

theorem iterationLabels_all_finite_vs_inf {n : ℕ} (current : Fin n → PFloat)
    (h : ∀ j, (current j).isFin = true) :
    iterationLabels current (fun _ => PFloat.inf) = List.replicate n 0 := by
  unfold iterationLabels
  have hc : ∀ j ∈ List.finRange n,
      classifyDelta (PFloat.sub (current j) PFloat.inf) = 0 := by
    intro j _
    rw [PFloat.sub_fin_inf (h j), classifyDelta_ninf]
  rw [List.map_congr_left hc]
  simp [List.map_const']

theorem recalStep_entropy_zero (c1 c2 : ℚ) (l : List ℕ) :
    recalStep 0 c1 c2 l = (max (1 / 10) (c1 - 1), max (1 / 10) (c2 + 1), []) := by
  unfold recalStep
  rw [if_neg (by norm_num), if_neg (by norm_num), if_neg (by norm_num)]

/-- C10: on the first iteration of the entropy optimizer the previous
per-particle costs are `+inf` (line 207), so whenever every current
cost is finite, every particle is labelled 0 (improved), the entropy
of the accumulated labels is 0, and the recalibration at iteration 0
deterministically takes the lowest-entropy branch: `c1` becomes
`max(0.1, c1 - 1)`, `c2` becomes `max(0.1, c2 + 1)` and the label list
is reset to empty — for every objective (cost stream) and any
`ftol_iter >= 1`. -/
theorem first_iteration_takes_low_entropy_branch (n : ℕ) (cfg : EConfig)
    (costs : ℕ → Fin n → PFloat)
    (hft : 1 ≤ cfg.ftolIter)
    (hfin : ∀ j, (costs 0 j).isFin = true) :
    iterationLabels (costs 0) (entropyInitState cfg n).prevCost =
        List.replicate n 0 ∧
      entropy ((entropyInitState cfg n).listR ++
        iterationLabels (costs 0) (entropyInitState cfg n).prevCost) = 0 ∧
      (entropyIterStep cfg costs 0 (entropyInitState cfg n)).1.c1 =
        max (1 / 10) (cfg.c1 - 1) ∧
      (entropyIterStep cfg costs 0 (entropyInitState cfg n)).1.c2 =
        max (1 / 10) (cfg.c2 + 1) ∧
      (entropyIterStep cfg costs 0 (entropyInitState cfg n)).1.listR = [] ∧
      (entropyIterStep cfg costs 0 (entropyInitState cfg n)).2 = false := by
  have hprev : (entropyInitState cfg n).prevCost = fun _ => PFloat.inf := rfl
  have hlab : iterationLabels (costs 0) (entropyInitState cfg n).prevCost =
      List.replicate n 0 := by
    rw [hprev]
    exact iterationLabels_all_finite_vs_inf (costs 0) hfin
  have hent : entropy ((entropyInitState cfg n).listR ++
      iterationLabels (costs 0) (entropyInitState cfg n).prevCost) = 0 := by
    rw [hlab]
    show entropy ([] ++ List.replicate n 0) = 0
    rw [List.nil_append]
    exact entropy_replicate_zero n
  have hbreak : ¬ (cfg.ftolIter ≤ 0 ∧
      (pushWindow cfg.ftolIter (entropyInitState cfg n).ftolHist
        (PFloat.lt (PFloat.absv (PFloat.sub
          (computeGbestCost (computePbestCost (costs 0)
            (entropyInitState cfg n).pbestCost)
            (entropyInitState cfg n).bestCost)
          (entropyInitState cfg n).bestCost))
          (PFloat.mul cfg.ftol (PFloat.add (PFloat.fin 1)
            (PFloat.absv (entropyInitState cfg n).bestCost))))).all id) := by
    intro hc
    omega
  have htrig : entropyTrigger 0 = true := rfl
  refine ⟨hlab, hent, ?_, ?_, ?_, ?_⟩
  · unfold entropyIterStep
    dsimp only
    rw [if_neg hbreak, if_pos htrig, hent, recalStep_entropy_zero]
    rfl
  · unfold entropyIterStep
    dsimp only
    rw [if_neg hbreak, if_pos htrig, hent, recalStep_entropy_zero]
    rfl
  · unfold entropyIterStep
    dsimp only
    rw [if_neg hbreak, if_pos htrig, hent, recalStep_entropy_zero]
  · unfold entropyIterStep
    dsimp only
    rw [if_neg hbreak, if_pos htrig]

/-- Witness for C10 at a concrete input: three particles, all current
costs 0, configuration `c1 = 1/2`, `c2 = 3/10`, `ftol = -inf`,
`ftol_iter = 1`. -/
theorem first_iteration_takes_low_entropy_branch_witness :
    (1 ≤ (EConfig.mk (1 / 2) (3 / 10) PFloat.ninf 1).ftolIter) ∧
      (∀ j : Fin 3, (((fun _ _ => PFloat.fin 0) : ℕ → Fin 3 → PFloat) 0 j).isFin = true) ∧
      (iterationLabels (((fun _ _ => PFloat.fin 0) : ℕ → Fin 3 → PFloat) 0)
          (entropyInitState (EConfig.mk (1 / 2) (3 / 10) PFloat.ninf 1) 3).prevCost =
          List.replicate 3 0 ∧
        entropy ((entropyInitState (EConfig.mk (1 / 2) (3 / 10) PFloat.ninf 1) 3).listR ++
          iterationLabels (((fun _ _ => PFloat.fin 0) : ℕ → Fin 3 → PFloat) 0)
            (entropyInitState (EConfig.mk (1 / 2) (3 / 10) PFloat.ninf 1) 3).prevCost) = 0 ∧
        (entropyIterStep (EConfig.mk (1 / 2) (3 / 10) PFloat.ninf 1)
            (fun _ _ => PFloat.fin 0) 0
            (entropyInitState (EConfig.mk (1 / 2) (3 / 10) PFloat.ninf 1) 3)).1.c1 =
          max (1 / 10) ((EConfig.mk (1 / 2) (3 / 10) PFloat.ninf 1).c1 - 1) ∧
        (entropyIterStep (EConfig.mk (1 / 2) (3 / 10) PFloat.ninf 1)
            (fun _ _ => PFloat.fin 0) 0
            (entropyInitState (EConfig.mk (1 / 2) (3 / 10) PFloat.ninf 1) 3)).1.c2 =
          max (1 / 10) ((EConfig.mk (1 / 2) (3 / 10) PFloat.ninf 1).c2 + 1) ∧
        (entropyIterStep (EConfig.mk (1 / 2) (3 / 10) PFloat.ninf 1)
            (fun _ _ => PFloat.fin 0) 0
            (entropyInitState (EConfig.mk (1 / 2) (3 / 10) PFloat.ninf 1) 3)).1.listR = [] ∧
        (entropyIterStep (EConfig.mk (1 / 2) (3 / 10) PFloat.ninf 1)
            (fun _ _ => PFloat.fin 0) 0
            (entropyInitState (EConfig.mk (1 / 2) (3 / 10) PFloat.ninf 1) 3)).2 = false) :=
  ⟨by decide, by decide,
    first_iteration_takes_low_entropy_branch 3
      (EConfig.mk (1 / 2) (3 / 10) PFloat.ninf 1)
      (fun _ _ => PFloat.fin 0) (by decide) (by decide)⟩

/-
Claim C6 considers the convergence scenario `ftol = 1e-6`,
`ftol_iter = 5`, constant objective 0 — so every per-iteration cost is
`0` — with any (positive) number of particles and any coefficients.
-/

/-- Configuration of the C6 convergence scenario. -/
def c6Cfg (c1 c2 : ℚ) : EConfig :=
  { c1 := c1, c2 := c2, ftol := PFloat.fin (1 / 1000000), ftolIter := 5 }

/-- Cost stream of the constant objective `f(x) = 0`. -/
def c6Costs (m : ℕ) : ℕ → Fin (m + 1) → PFloat := fun _ _ => PFloat.fin 0

theorem pmin_fin0 : PFloat.pmin (PFloat.fin 0) (PFloat.fin 0) = PFloat.fin 0 := by
  norm_num [PFloat.pmin, PFloat.isNan, PFloat.lt]

theorem npMin_const_fin0 (m : ℕ) :
    PFloat.npMin ((List.finRange (m + 1)).map (fun _ => PFloat.fin 0)) =
      PFloat.fin 0 := by
  have hmap : (List.finRange (m + 1)).map (fun _ => PFloat.fin 0) =
      List.replicate (m + 1) (PFloat.fin 0) := by
    simp [List.map_const']
  rw [hmap, List.replicate_succ]
  clear hmap
  show (List.replicate m (PFloat.fin 0)).foldl PFloat.pmin (PFloat.fin 0) =
    PFloat.fin 0
  induction m with
  | zero => rfl
  | succ k ih =>
    rw [List.replicate_succ, List.foldl_cons, pmin_fin0]
    exact ih

theorem computePbestCost_start (m : ℕ) :
    computePbestCost (fun _ => PFloat.fin 0) (fun _ : Fin (m + 1) => PFloat.inf) =
      (fun _ => PFloat.fin 0) := by
  funext j
  simp [computePbestCost, PFloat.lt]

theorem computePbestCost_steady (m : ℕ) :
    computePbestCost (fun _ => PFloat.fin 0) (fun _ : Fin (m + 1) => PFloat.fin 0) =
      (fun _ => PFloat.fin 0) := by
  funext j
  norm_num [computePbestCost, PFloat.lt]

theorem computeGbestCost_start (m : ℕ) :
    computeGbestCost (fun _ : Fin (m + 1) => PFloat.fin 0) PFloat.inf =
      PFloat.fin 0 := by
  unfold computeGbestCost
  rw [npMin_const_fin0]
  simp [PFloat.lt]

theorem computeGbestCost_steady (m : ℕ) :
    computeGbestCost (fun _ : Fin (m + 1) => PFloat.fin 0) (PFloat.fin 0) =
      PFloat.fin 0 := by
  unfold computeGbestCost
  rw [npMin_const_fin0]
  norm_num [PFloat.lt]

theorem c6_delta_first :
    PFloat.lt (PFloat.absv (PFloat.sub (PFloat.fin 0) PFloat.inf))
      (PFloat.mul (PFloat.fin (1 / 1000000))
        (PFloat.add (PFloat.fin 1) (PFloat.absv PFloat.inf))) = false := by
  norm_num [PFloat.sub, PFloat.absv, PFloat.add, PFloat.mul, PFloat.lt]

theorem c6_delta_steady :
    PFloat.lt (PFloat.absv (PFloat.sub (PFloat.fin 0) (PFloat.fin 0)))
      (PFloat.mul (PFloat.fin (1 / 1000000))
        (PFloat.add (PFloat.fin 1) (PFloat.absv (PFloat.fin 0)))) = true := by
  norm_num [PFloat.sub, PFloat.absv, PFloat.add, PFloat.mul, PFloat.lt]

theorem iterationLabels_steady (m : ℕ) :
    iterationLabels (fun _ => PFloat.fin 0) (fun _ : Fin (m + 1) => PFloat.fin 0) =
      List.replicate (m + 1) 1 := by
  unfold iterationLabels
  have hc : ∀ j ∈ List.finRange (m + 1),
      classifyDelta (PFloat.sub (PFloat.fin 0) (PFloat.fin 0)) = 1 := by
    intro j _
    norm_num [classifyDelta, PFloat.sub, PFloat.lt]
  rw [List.map_congr_left hc]
  simp [List.map_const']

/-- State after iteration 0 of the C6 scenario: best cost 0, window
`[false]` (the first delta compares against the initial infinite
best), labels reset by the iteration-0 recalibration. -/
def c6S1 (m : ℕ) (c1 c2 : ℚ) : EState (m + 1) :=
  { pbestCost := fun _ => PFloat.fin 0, bestCost := PFloat.fin 0,
    prevCost := fun _ => PFloat.fin 0, listR := [],
    c1 := max (1 / 10) (c1 - 1), c2 := max (1 / 10) (c2 + 1),
    ftolHist := [false], costHist := [PFloat.fin 0], brokeAt := none }

/-- State after iteration 1 of the C6 scenario. -/
def c6S2 (m : ℕ) (c1 c2 : ℚ) : EState (m + 1) :=
  { pbestCost := fun _ => PFloat.fin 0, bestCost := PFloat.fin 0,
    prevCost := fun _ => PFloat.fin 0, listR := List.replicate (m + 1) 1,
    c1 := max (1 / 10) (c1 - 1), c2 := max (1 / 10) (c2 + 1),
    ftolHist := [false, true], costHist := [PFloat.fin 0, PFloat.fin 0],
    brokeAt := none }

/-- State after iteration 2 of the C6 scenario. -/
def c6S3 (m : ℕ) (c1 c2 : ℚ) : EState (m + 1) :=
  { pbestCost := fun _ => PFloat.fin 0, bestCost := PFloat.fin 0,
    prevCost := fun _ => PFloat.fin 0,
    listR := List.replicate (m + 1) 1 ++ List.replicate (m + 1) 1,
    c1 := max (1 / 10) (c1 - 1), c2 := max (1 / 10) (c2 + 1),
    ftolHist := [false, true, true],
    costHist := [PFloat.fin 0, PFloat.fin 0, PFloat.fin 0], brokeAt := none }

/-- State after iteration 3 of the C6 scenario. -/
def c6S4 (m : ℕ) (c1 c2 : ℚ) : EState (m + 1) :=
  { pbestCost := fun _ => PFloat.fin 0, bestCost := PFloat.fin 0,
    prevCost := fun _ => PFloat.fin 0,
    listR := List.replicate (m + 1) 1 ++ List.replicate (m + 1) 1 ++
      List.replicate (m + 1) 1,
    c1 := max (1 / 10) (c1 - 1), c2 := max (1 / 10) (c2 + 1),
    ftolHist := [false, true, true, true],
    costHist := [PFloat.fin 0, PFloat.fin 0, PFloat.fin 0, PFloat.fin 0],
    brokeAt := none }

/-- State after iteration 4 of the C6 scenario: the window is full for
the first time but still holds the initial `false`. -/
def c6S5 (m : ℕ) (c1 c2 : ℚ) : EState (m + 1) :=
  { pbestCost := fun _ => PFloat.fin 0, bestCost := PFloat.fin 0,
    prevCost := fun _ => PFloat.fin 0,
    listR := List.replicate (m + 1) 1 ++ List.replicate (m + 1) 1 ++
      List.replicate (m + 1) 1 ++ List.replicate (m + 1) 1,
    c1 := max (1 / 10) (c1 - 1), c2 := max (1 / 10) (c2 + 1),
    ftolHist := [false, true, true, true, true],
    costHist := [PFloat.fin 0, PFloat.fin 0, PFloat.fin 0, PFloat.fin 0,
      PFloat.fin 0],
    brokeAt := none }

/-- State in which the C6 run terminates: at iteration 5 the window is
all `true` for the first time and the loop breaks. -/
def c6S6 (m : ℕ) (c1 c2 : ℚ) : EState (m + 1) :=
  { pbestCost := fun _ => PFloat.fin 0, bestCost := PFloat.fin 0,
    prevCost := fun _ => PFloat.fin 0,
    listR := List.replicate (m + 1) 1 ++ List.replicate (m + 1) 1 ++
      List.replicate (m + 1) 1 ++ List.replicate (m + 1) 1,
    c1 := max (1 / 10) (c1 - 1), c2 := max (1 / 10) (c2 + 1),
    ftolHist := [true, true, true, true, true],
    costHist := [PFloat.fin 0, PFloat.fin 0, PFloat.fin 0, PFloat.fin 0,
      PFloat.fin 0, PFloat.fin 0],
    brokeAt := some 5 }

theorem c6_step0 (m : ℕ) (c1 c2 : ℚ) :
    entropyIterStep (c6Cfg c1 c2) (c6Costs m) 0
      (entropyInitState (c6Cfg c1 c2) (m + 1)) = (c6S1 m c1 c2, false) := by
  unfold entropyIterStep c6Cfg c6Costs entropyInitState c6S1
  dsimp only
  rw [computePbestCost_start, computeGbestCost_start, c6_delta_first]
  rw [if_neg (fun hc => absurd hc.1 (by norm_num))]
  rw [if_pos (show entropyTrigger 0 = true from rfl)]
  rw [iterationLabels_all_finite_vs_inf (fun _ => PFloat.fin 0) (fun j => rfl)]
  rw [List.nil_append, entropy_replicate_zero, recalStep_entropy_zero]
  rfl

theorem c6_step1 (m : ℕ) (c1 c2 : ℚ) :
    entropyIterStep (c6Cfg c1 c2) (c6Costs m) 1 (c6S1 m c1 c2) =
      (c6S2 m c1 c2, false) := by
  unfold entropyIterStep c6Cfg c6Costs c6S1 c6S2
  dsimp only
  rw [computePbestCost_steady, computeGbestCost_steady, c6_delta_steady]
  rw [if_neg (fun hc => absurd hc.1 (by norm_num))]
  rw [if_neg (show ¬ entropyTrigger 1 = true from by decide)]
  rw [iterationLabels_steady]
  rfl

theorem c6_step2 (m : ℕ) (c1 c2 : ℚ) :
    entropyIterStep (c6Cfg c1 c2) (c6Costs m) 2 (c6S2 m c1 c2) =
      (c6S3 m c1 c2, false) := by
  unfold entropyIterStep c6Cfg c6Costs c6S2 c6S3
  dsimp only
  rw [computePbestCost_steady, computeGbestCost_steady, c6_delta_steady]
  rw [if_neg (fun hc => absurd hc.1 (by norm_num))]
  rw [if_neg (show ¬ entropyTrigger 2 = true from by decide)]
  rw [iterationLabels_steady]
  rfl

theorem c6_step3 (m : ℕ) (c1 c2 : ℚ) :
    entropyIterStep (c6Cfg c1 c2) (c6Costs m) 3 (c6S3 m c1 c2) =
      (c6S4 m c1 c2, false) := by
  unfold entropyIterStep c6Cfg c6Costs c6S3 c6S4
  dsimp only
  rw [computePbestCost_steady, computeGbestCost_steady, c6_delta_steady]
  rw [if_neg (fun hc => absurd hc.1 (by norm_num))]
  rw [if_neg (show ¬ entropyTrigger 3 = true from by decide)]
  rw [iterationLabels_steady]
  rfl

theorem c6_step4 (m : ℕ) (c1 c2 : ℚ) :
    entropyIterStep (c6Cfg c1 c2) (c6Costs m) 4 (c6S4 m c1 c2) =
      (c6S5 m c1 c2, false) := by
  unfold entropyIterStep c6Cfg c6Costs c6S4 c6S5
  dsimp only
  rw [computePbestCost_steady, computeGbestCost_steady, c6_delta_steady]
  rw [if_neg (fun hc => absurd hc.1 (by norm_num))]
  rw [if_neg (show ¬ entropyTrigger 4 = true from by decide)]
  rw [iterationLabels_steady]
  rfl

theorem c6_step5 (m : ℕ) (c1 c2 : ℚ) :
    entropyIterStep (c6Cfg c1 c2) (c6Costs m) 5 (c6S5 m c1 c2) =
      (c6S6 m c1 c2, true) := by
  unfold entropyIterStep c6Cfg c6Costs c6S5 c6S6
  dsimp only
  rw [computePbestCost_steady, computeGbestCost_steady, c6_delta_steady]
  rw [if_pos (show (5:ℕ) ≤ 5 ∧ (pushWindow 5 [false, true, true, true, true]
    true).all id = true from ⟨le_refl 5, rfl⟩)]
  rfl

theorem entropyRunAux_succ {n : ℕ} (cfg : EConfig)
    (costs : ℕ → Fin n → PFloat) (i fuel : ℕ) (s : EState n) :
    entropyRunAux cfg costs i (fuel + 1) s =
      if (entropyIterStep cfg costs i s).2 then (entropyIterStep cfg costs i s).1
      else entropyRunAux cfg costs (i + 1) fuel (entropyIterStep cfg costs i s).1 :=
  rfl

/-- C6: with `ftol = 1e-6`, `ftol_iter = 5` and the constant objective
`f(x) = 0`, the optimizer stops early by breaking at iteration 5 — the
first iteration at which the sliding window is full of `true` entries
— recording 6 best costs instead of running all 100 iterations; this
holds for every particle count and any coefficients. -/
theorem constant_objective_stops_at_iteration_five (m : ℕ) (c1 c2 : ℚ) :
    (entropyOptimize (c6Cfg c1 c2) (c6Costs m) 100).brokeAt = some 5 ∧
      (entropyOptimize (c6Cfg c1 c2) (c6Costs m) 100).costHist.length = 6 ∧
      6 < 100 := by
  have hrun : entropyOptimize (c6Cfg c1 c2) (c6Costs m) 100 = c6S6 m c1 c2 := by
    unfold entropyOptimize
    rw [show (100 : ℕ) = 99 + 1 from rfl, entropyRunAux_succ, c6_step0,
      if_neg Bool.false_ne_true]
    rw [show (99 : ℕ) = 98 + 1 from rfl, entropyRunAux_succ, c6_step1,
      if_neg Bool.false_ne_true]
    rw [show (98 : ℕ) = 97 + 1 from rfl, entropyRunAux_succ, c6_step2,
      if_neg Bool.false_ne_true]
    rw [show (97 : ℕ) = 96 + 1 from rfl, entropyRunAux_succ, c6_step3,
      if_neg Bool.false_ne_true]
    rw [show (96 : ℕ) = 95 + 1 from rfl, entropyRunAux_succ, c6_step4,
      if_neg Bool.false_ne_true]
    rw [show (95 : ℕ) = 94 + 1 from rfl, entropyRunAux_succ, c6_step5,
      if_pos rfl]
  rw [hrun]
  exact ⟨rfl, rfl, by norm_num⟩
